import Mathlib

/-!
Verification of the D3D12 replay consumer core (dx12_replay_consumer_base.cpp).

The state tables kept by the consumer (object info table, fence waiting-object
maps, queue pending-event deques, mapped-memory index, heap-allocation pool,
GPU VA map, window tables) are embedded as association lists over natural
numbers; the override entry points and the fence/queue synchronizer are
embedded as pure state-passing functions.  Host-side effects that the claims
talk about (WaitForSingleObject calls, SignalWaitingQueue invocations,
VirtualFree calls, window-factory destruction) are recorded in explicit logs.
-/

namespace GfxRecon

/-! ## Association-list helpers (std::map / std::unordered_map operations) -/

def alookup {α : Type} : List (Nat × α) → Nat → Option α
  | [], _ => none
  | e :: t, k => if e.1 = k then some e.2 else alookup t k

def aupdate {α : Type} : List (Nat × α) → Nat → (α → α) → List (Nat × α)
  | [], _, _ => []
  | e :: t, k, g => if e.1 = k then (e.1, g e.2) :: aupdate t k g else e :: aupdate t k g

def aset {α : Type} : List (Nat × α) → Nat → α → List (Nat × α)
  | [], k, v => [(k, v)]
  | e :: t, k, v => if e.1 = k then (k, v) :: t else e :: aset t k v

def aerase {α : Type} : List (Nat × α) → Nat → List (Nat × α)
  | [], _ => []
  | e :: t, k => if e.1 = k then aerase t k else e :: aerase t k

def akeys {α : Type} (l : List (Nat × α)) : List Nat := l.map (·.1)

/-! ## Fence / queue synchronizer state

Mirrors D3D12FenceInfo, D3D12CommandQueueInfo and QueueSyncEventInfo from the
consumer.  Fence and queue records are addressed by their capture ids; the
`waiting_objects` std::map is kept as a key-sorted association list, matching
std::map iteration order. -/

structure QueueSyncEventInfo where
  is_wait : Bool
  is_signaled : Bool
  fence : Nat
  value : Nat
deriving DecidableEq

structure WaitingObjects where
  wait_events : List Nat
  wait_queues : List Nat
deriving DecidableEq

structure FenceInfo where
  last_signaled_value : Nat
  waiting_objects : List (Nat × WaitingObjects)
deriving DecidableEq

structure QueueInfo where
  pending_events : List QueueSyncEventInfo
deriving DecidableEq

structure SyncState where
  fences : List (Nat × FenceInfo)
  queues : List (Nat × QueueInfo)
  waited_events : List (Nat × Nat)
  queue_notifications : List (Nat × Nat × Nat)
deriving DecidableEq

def SyncState.empty : SyncState := ⟨[], [], [], []⟩

def SyncState.setFences (s : SyncState) (l : List (Nat × FenceInfo)) : SyncState :=
  { s with fences := l }

def SyncState.setQueues (s : SyncState) (l : List (Nat × QueueInfo)) : SyncState :=
  { s with queues := l }

def SyncState.logWaits (s : SyncState) (l : List (Nat × Nat)) : SyncState :=
  { s with waited_events := s.waited_events ++ l }

def SyncState.logNotification (s : SyncState) (q f v : Nat) : SyncState :=
  { s with queue_notifications := s.queue_notifications ++ [(q, f, v)] }

def INFINITE : Nat := 4294967295

def kDefaultWaitTimeout : Nat := INFINITE

/-- OverrideCreateFence, success path: attach a D3D12FenceInfo whose
last_signaled_value is the initial value. -/
def overrideCreateFence (s : SyncState) (f initial_value : Nat) : SyncState :=
  { s with fences := aset s.fences f ⟨initial_value, []⟩ }

/-- OverrideCreateCommandQueue, success path without --sync: attach an empty
D3D12CommandQueueInfo. -/
def overrideCreateCommandQueue (s : SyncState) (q : Nat) : SyncState :=
  { s with queues := aset s.queues q ⟨[]⟩ }

/-- Insertion into the sorted waiting_objects map: the std::map operator[]
creates a default entry when the key is absent; push_back appends the queue. -/
def addWaitQueue : List (Nat × WaitingObjects) → Nat → Nat → List (Nat × WaitingObjects)
  | [], v, q => [(v, ⟨[], [q]⟩)]
  | (k, w) :: rest, v, q =>
    if v < k then (v, ⟨[], [q]⟩) :: (k, w) :: rest
    else if v = k then (k, ⟨w.wait_events, w.wait_queues ++ [q]⟩) :: rest
    else (k, w) :: addWaitQueue rest v q

/-- Insertion of a wait event into the sorted waiting_objects map. -/
def addWaitEvent : List (Nat × WaitingObjects) → Nat → Nat → List (Nat × WaitingObjects)
  | [], v, e => [(v, ⟨[e], []⟩)]
  | (k, w) :: rest, v, e =>
    if v < k then (v, ⟨[e], []⟩) :: (k, w) :: rest
    else if v = k then (k, ⟨w.wait_events ++ [e], w.wait_queues⟩) :: rest
    else (k, w) :: addWaitEvent rest v e

/-- ProcessQueueWait: when the value is not yet signaled, append a wait entry
to the queue's pending_events and register the queue under
fence.waiting_objects[value]. -/
def processQueueWait (s : SyncState) (q f v : Nat) : SyncState :=
  match alookup s.queues q, alookup s.fences f with
  | some _, some fi =>
    if fi.last_signaled_value < v then
      let s1 := s.setQueues
        (aupdate s.queues q (fun qi => ⟨qi.pending_events ++ [⟨true, false, f, v⟩]⟩))
      s1.setFences
        (aupdate s1.fences f (fun fi2 =>
          ⟨fi2.last_signaled_value, addWaitQueue fi2.waiting_objects v q⟩))
    else s
  | _, _ => s

mutual

/-- ProcessFenceSignal: when an entry keyed exactly at the signaled value is
present, process the iterator range [upper_bound(last_signaled_value),
next(find(value))) of waiting_objects (captured up front, as in the source),
erase it, and set last_signaled_value to the value; when the lookup fails,
only last_signaled_value is updated. -/
def processFenceSignal (fuel : Nat) (s : SyncState) (f v : Nat) : Option SyncState :=
  match fuel with
  | 0 => none
  | fuel' + 1 =>
    match alookup s.fences f with
    | none => some s
    | some fi =>
      if (alookup fi.waiting_objects v).isSome then
        let lo := fi.last_signaled_value
        let inRange : Nat → Bool :=
          if lo < v then (fun k => decide (lo < k) && decide (k ≤ v)) else (fun k => k == v)
        let range := fi.waiting_objects.filter (fun e => inRange e.1)
        match processWaitingEntries fuel' s f v range with
        | none => none
        | some s1 =>
          some (s1.setFences
            (aupdate s1.fences f (fun fi2 =>
              ⟨v, fi2.waiting_objects.filter (fun e => !(inRange e.1))⟩)))
      else
        some (s.setFences (aupdate s.fences f (fun fi2 => ⟨v, fi2.waiting_objects⟩)))
termination_by structural fuel

/-- The loop over the processed range of waiting_objects: wait on every cached
wait event with the default timeout, then notify every waiting queue. -/
def processWaitingEntries (fuel : Nat) (s : SyncState) (f v : Nat)
    (entries : List (Nat × WaitingObjects)) : Option SyncState :=
  match fuel with
  | 0 => none
  | fuel' + 1 =>
    match entries with
    | [] => some s
    | (_, w) :: rest =>
      let s1 := s.logWaits (w.wait_events.map (fun e => (e, kDefaultWaitTimeout)))
      match notifyWaitQueues fuel' s1 f v w.wait_queues with
      | none => none
      | some s2 => processWaitingEntries fuel' s2 f v rest
termination_by structural fuel

/-- The loop over an entry's wait_queues: SignalWaitingQueue is invoked with
the signaled value (not the entry key). -/
def notifyWaitQueues (fuel : Nat) (s : SyncState) (f v : Nat) (qs : List Nat) :
    Option SyncState :=
  match fuel with
  | 0 => none
  | fuel' + 1 =>
    match qs with
    | [] => some s
    | q :: rest =>
      match signalWaitingQueue fuel' s q f v with
      | none => none
      | some s1 => notifyWaitQueues fuel' s1 f v rest
termination_by structural fuel

/-- SignalWaitingQueue: mark every pending wait on this fence and value as
signaled, then drain the front of pending_events.  The invocation itself is
recorded in the queue_notifications log. -/
def signalWaitingQueue (fuel : Nat) (s : SyncState) (q f v : Nat) : Option SyncState :=
  match fuel with
  | 0 => none
  | fuel' + 1 =>
    let s0 := s.logNotification q f v
    match alookup s0.queues q, alookup s0.fences f with
    | some _, some _ =>
      let s1 := s0.setQueues
        (aupdate s0.queues q (fun qi =>
          ⟨qi.pending_events.map (fun e =>
            if e.is_wait && e.fence == f && e.value == v then
              { e with is_signaled := true } else e)⟩))
      drainPendingEvents fuel' s1 q
    | _, _ => some s0
termination_by structural fuel

/-- The drain loop of SignalWaitingQueue: pop signaled waits, stop at an
unsignaled wait, and recursively process popped signal entries. -/
def drainPendingEvents (fuel : Nat) (s : SyncState) (q : Nat) : Option SyncState :=
  match fuel with
  | 0 => none
  | fuel' + 1 =>
    match alookup s.queues q with
    | none => some s
    | some qi =>
      match qi.pending_events with
      | [] => some s
      | front :: rest =>
        if front.is_wait then
          if front.is_signaled then
            drainPendingEvents fuel' (s.setQueues (aupdate s.queues q (fun _ => ⟨rest⟩))) q
          else some s
        else
          let s1 := s.setQueues (aupdate s.queues q (fun _ => ⟨rest⟩))
          match processFenceSignal fuel' s1 front.fence front.value with
          | none => none
          | some s2 => drainPendingEvents fuel' s2 q
termination_by structural fuel

end

/-- ProcessQueueSignal: with no pending events the fence signal is processed
immediately; otherwise a deferred signal entry is appended. -/
def processQueueSignal (fuel : Nat) (s : SyncState) (q f v : Nat) : Option SyncState :=
  match alookup s.queues q with
  | some qi =>
    if qi.pending_events.isEmpty then processFenceSignal fuel s f v
    else some (s.setQueues
      (aupdate s.queues q (fun qi2 => ⟨qi2.pending_events ++ [⟨false, false, f, v⟩]⟩)))
  | none => some s

/-- OverrideSetEventOnCompletion, success path: wait immediately (default
timeout) when the value is already signaled, otherwise register the event
under fence.waiting_objects[value]. -/
def overrideSetEventOnCompletion (s : SyncState) (f v event : Nat) : SyncState :=
  match alookup s.fences f with
  | some fi =>
    if v ≤ fi.last_signaled_value then
      s.logWaits [(event, kDefaultWaitTimeout)]
    else
      s.setFences
        (aupdate s.fences f (fun fi2 =>
          ⟨fi2.last_signaled_value, addWaitEvent fi2.waiting_objects v event⟩))
  | none => s

/-! ## Concrete synchronizer runs -/

/-- Fence 0 created at value 0; queue 10 waits on it at value 3, and event 77
is registered at value 3.  The fence is then signaled with value 5, so the
waiter's key 3 lies in the half-open interval (0, 5]. -/
def c1State : SyncState :=
  overrideSetEventOnCompletion
    (processQueueWait
      (overrideCreateCommandQueue (overrideCreateFence SyncState.empty 0 0) 10) 10 0 3)
    0 3 77

def c1Result : Option SyncState := processFenceSignal 50 c1State 0 5

/-- Fence 0 created at 0 with event 3 registered at value 5: signaling value
5 waits on the event with the default timeout. -/
def c6State : SyncState :=
  overrideSetEventOnCompletion (overrideCreateFence SyncState.empty 0 0) 0 5 3

/-! ## OverrideGetCompletedValue

The observable outcome of OverrideGetCompletedValue: the value returned to
the decoder, the fence value the internal replay event was registered at (via
the driver fence's SetEventOnCompletion), and the timeout passed to
WaitForSingleObject when a synchronous wait was issued. -/

structure GetCompletedValueResult where
  returned : Nat
  registered : Option Nat
  wait_timeout : Option Nat
deriving DecidableEq

/-- OverrideGetCompletedValue: query the driver (replay_result); when the
fence has an extra-info record and the capture value exceeds the driver's,
register the internal event at the capture value and wait with the default
timeout (when the event object was created); always return the capture
value. -/
def overrideGetCompletedValue (has_extra_info event_ok : Bool)
    (original_result replay_result : Nat) : GetCompletedValueResult :=
  if has_extra_info then
    if replay_result < original_result then
      if event_ok then ⟨original_result, some original_result, some kDefaultWaitTimeout⟩
      else ⟨original_result, none, none⟩
    else ⟨original_result, none, none⟩
  else ⟨original_result, none, none⟩

/-- Simulation relation for the synchronizer: a processing step never changes
the key sets of the fence and queue tables, and only appends waits carrying
the default timeout to the WaitForSingleObject log. -/
def SyncObs (s s' : SyncState) : Prop :=
  akeys s'.fences = akeys s.fences ∧ akeys s'.queues = akeys s.queues ∧
  (∀ x ∈ s'.waited_events, x ∈ s.waited_events ∨ x.2 = kDefaultWaitTimeout)

/-- Fence 0 created with initial value 5 (OverrideCreateFence records the
initial value as last_signaled_value). -/
def c2State : SyncState := overrideCreateFence SyncState.empty 0 5
/-- Scenario S4 setup: fences F=0 and G=1 created at 0, queues Q=10 and
Q'=11 created, then Wait(Q, F, 4). -/
def s4Setup : SyncState :=
  processQueueWait
    (overrideCreateCommandQueue
      (overrideCreateCommandQueue
        (overrideCreateFence (overrideCreateFence SyncState.empty 0 0) 1 0) 10) 11)
    10 0 4
/-- Scenario S4 after Signal(Q, G, 1): the signal is queued behind the wait. -/
def s4Mid : Option SyncState := processQueueSignal 20 s4Setup 10 1 1
/-- Scenario S4 after the producer Signal(Q', F, 4). -/
def s4Final : Option SyncState := s4Mid.bind (fun s => processQueueSignal 20 s 11 0 4)

/-! ## Mapped memory index (OverrideResourceMap / OverrideResourceUnmap)

Mirrors D3D12ResourceInfo::mapped_memory_info (subresource index to
MappedMemoryInfo with a capture memory id and a nested-map count) and the
consumer-wide mapped_memory_ index from memory id to host pointer. -/

structure MappedMemoryInfo where
  memory_id : Nat
  count : Nat
deriving DecidableEq

structure D3D12ResourceInfo where
  mapped_memory_info : List (Nat × MappedMemoryInfo)
deriving DecidableEq

structure MapState where
  resources : List (Nat × D3D12ResourceInfo)
  mapped_memory : List (Nat × Nat)
deriving DecidableEq

def MapState.empty : MapState := ⟨[], []⟩

/-- OverrideResourceMap, success path with non-null id and data pointers: the
resource extra-info is created on first use, the subresource's memory_id is
overwritten, its count incremented, and the memory id is indexed to the host
pointer. -/
def overrideResourceMap (s : MapState) (r sub memory_id ptr : Nat) : MapState :=
  let res := (alookup s.resources r).getD ⟨[]⟩
  let mi := (alookup res.mapped_memory_info sub).getD ⟨0, 0⟩
  ⟨aset s.resources r ⟨aset res.mapped_memory_info sub ⟨memory_id, mi.count + 1⟩⟩,
   aset s.mapped_memory memory_id ptr⟩

/-- OverrideResourceUnmap: when the resource has extra info and the
subresource is mapped, the count is decremented; at zero, the index entry for
the stored memory id and the subresource entry are erased. -/
def overrideResourceUnmap (s : MapState) (r sub : Nat) : MapState :=
  match alookup s.resources r with
  | none => s
  | some res =>
    match alookup res.mapped_memory_info sub with
    | none => s
    | some mi =>
      if mi.count - 1 = 0 then
        ⟨aset s.resources r ⟨aerase res.mapped_memory_info sub⟩,
         aerase s.mapped_memory mi.memory_id⟩
      else
        ⟨aset s.resources r ⟨aset res.mapped_memory_info sub ⟨mi.memory_id, mi.count - 1⟩⟩,
         s.mapped_memory⟩

/-- The Mapped Memory Index invariant: an index entry exists iff some
resource subresource references the memory id with a positive count, every
stored count is positive, distinct subresource slots reference distinct
memory ids, and the tables are key-unique. -/
def MappedInv (s : MapState) : Prop :=
  (∀ e ∈ s.mapped_memory, ∃ re ∈ s.resources, ∃ me ∈ re.2.mapped_memory_info,
    me.2.memory_id = e.1 ∧ 0 < me.2.count) ∧
  (∀ re ∈ s.resources, ∀ me ∈ re.2.mapped_memory_info,
    0 < me.2.count ∧ (alookup s.mapped_memory me.2.memory_id).isSome) ∧
  (∀ re1 ∈ s.resources, ∀ re2 ∈ s.resources, ∀ me1 ∈ re1.2.mapped_memory_info,
    ∀ me2 ∈ re2.2.mapped_memory_info, me1.2.memory_id = me2.2.memory_id →
      re1.1 = re2.1 ∧ me1.1 = me2.1) ∧
  (akeys s.resources).Nodup ∧
  (∀ re ∈ s.resources, (akeys re.2.mapped_memory_info).Nodup)

/-- Precondition on a Map call: a nested map of an already-mapped subresource
passes the subresource's stored memory id, and the id is not referenced by
any other subresource slot. -/
def MapPre (s : MapState) (r sub memory_id : Nat) : Prop :=
  (∀ mi, alookup ((alookup s.resources r).getD ⟨[]⟩).mapped_memory_info sub = some mi →
    mi.memory_id = memory_id) ∧
  (∀ re ∈ s.resources, ∀ me ∈ re.2.mapped_memory_info,
    me.2.memory_id = memory_id → re.1 = r ∧ me.1 = sub)

/-- The aliased-ids run: memory id 42 is mapped for subresources 0 and 1 of
resource 1, then subresource 0 is unmapped. -/
def c4State : MapState :=
  overrideResourceUnmap
    (overrideResourceMap (overrideResourceMap MapState.empty 1 0 42 100) 1 1 42 100) 1 0

/-! ## Object record retention (OverrideRelease / OverrideGetBuffer /
ResizeBuffers)

Mirrors DxObjectInfo's ref_count and extra_ref and the swapchain extra-info
images slot array; RemoveObject calls are logged in destroyed. -/

structure DxObjectInfo where
  ref_count : Nat
  extra_ref : Nat
deriving DecidableEq

structure ObjectTableState where
  records : List (Nat × DxObjectInfo)
  images : List (Option Nat)
  destroyed : List Nat
deriving DecidableEq

def removeObject (s : ObjectTableState) (oid : Nat) : ObjectTableState :=
  ⟨aerase s.records oid, s.images, s.destroyed ++ [oid]⟩

/-- OverrideRelease: decrement ref_count; destroy the record when both
ref_count and extra_ref are zero. -/
def overrideRelease (s : ObjectTableState) (oid : Nat) : ObjectTableState :=
  match alookup s.records oid with
  | none => s
  | some ri =>
    let ri2 : DxObjectInfo := ⟨ri.ref_count - 1, ri.extra_ref⟩
    let s1 : ObjectTableState := ⟨aupdate s.records oid (fun _ => ri2), s.images, s.destroyed⟩
    if ri2.ref_count = 0 ∧ ri2.extra_ref = 0 then removeObject s1 oid else s1

/-- OverrideGetBuffer, success path: when the swapchain slot is empty, take
one extra_ref on the buffer's record and store it in the slot. -/
def overrideGetBuffer (s : ObjectTableState) (buffer oid : Nat) : ObjectTableState :=
  match s.images[buffer]? with
  | some none =>
    ⟨aupdate s.records oid (fun ri => ⟨ri.ref_count, ri.extra_ref + 1⟩),
     s.images.set buffer (some oid), s.destroyed⟩
  | _ => s

/-- ReleaseSwapchainImages: drop one extra_ref per stored slot, destroying
records whose counts both reach zero, then reset the images array. -/
def releaseSwapchainImages (s : ObjectTableState) : ObjectTableState :=
  let s1 := s.images.foldl (fun acc slot =>
    match slot with
    | none => acc
    | some oid =>
      match alookup acc.records oid with
      | none => acc
      | some ri =>
        if 0 < ri.extra_ref then
          let ri2 : DxObjectInfo := ⟨ri.ref_count, ri.extra_ref - 1⟩
          let acc1 : ObjectTableState :=
            ⟨aupdate acc.records oid (fun _ => ri2), acc.images, acc.destroyed⟩
          if ri2.ref_count = 0 ∧ ri2.extra_ref = 0 then removeObject acc1 oid else acc1
        else acc) s
  ⟨s1.records, [], s1.destroyed⟩

/-- ResetSwapchainImages: release the per-slot extra refs and allocate a new
slot array of the new buffer count. -/
def resetSwapchainImages (s : ObjectTableState) (buffer_count : Nat) : ObjectTableState :=
  let s1 := releaseSwapchainImages s
  ⟨s1.records, List.replicate buffer_count none, s1.destroyed⟩

/-- OverrideResizeBuffers, success path. -/
def overrideResizeBuffers (s : ObjectTableState) (buffer_count : Nat) : ObjectTableState :=
  resetSwapchainImages s buffer_count

/-- Scenario S6: back buffer 5 with ref_count 1 and a two-slot swapchain. -/
def s6Start : ObjectTableState := ⟨[(5, ⟨1, 0⟩)], [none, none], []⟩

def s6AfterGet : ObjectTableState := overrideGetBuffer s6Start 0 5

def s6AfterRelease : ObjectTableState := overrideRelease s6AfterGet 5

def s6AfterResize : ObjectTableState := overrideResizeBuffers s6AfterRelease 3

/-! ## Heap allocation pool (ProcessCreateHeapAllocationCommand /
OverrideOpenExistingHeapFromAddress / DestroyHeapAllocations)

Allocated host pointers are modelled by a counter so that distinct
VirtualAlloc results are distinct; heap_owned holds pointers transferred to
Heap records' external_allocation, and freed logs VirtualFree calls. -/

structure HeapPoolState where
  pool : List (Nat × Nat)
  heap_owned : List Nat
  freed : List Nat
  next_ptr : Nat
deriving DecidableEq

def HeapPoolState.empty : HeapPoolState := ⟨[], [], [], 0⟩

def avals {α : Type} (l : List (Nat × α)) : List α := l.map (·.2)

/-- ProcessCreateHeapAllocationCommand, success path: commit a fresh host
allocation and record it under the allocation id (the source asserts the id
is not already present). -/
def processCreateHeapAllocationCommand (s : HeapPoolState) (allocation_id : Nat) :
    HeapPoolState :=
  ⟨aset s.pool allocation_id s.next_ptr, s.heap_owned, s.freed, s.next_ptr + 1⟩

/-- OverrideOpenExistingHeapFromAddress: when the allocation exists, the pool
entry is erased in all cases; on driver success the pointer transfers to the
heap record's external_allocation, on failure it is released immediately. -/
def overrideOpenExistingHeapFromAddress (s : HeapPoolState) (allocation_id : Nat)
    (driver_ok : Bool) : HeapPoolState :=
  match alookup s.pool allocation_id with
  | some p =>
    if driver_ok then ⟨aerase s.pool allocation_id, s.heap_owned ++ [p], s.freed, s.next_ptr⟩
    else ⟨aerase s.pool allocation_id, s.heap_owned, s.freed ++ [p], s.next_ptr⟩
  | none => s

/-- DestroyHeapAllocations: release every pool entry and clear the pool. -/
def destroyHeapAllocations (s : HeapPoolState) : HeapPoolState :=
  ⟨[], s.heap_owned, s.freed ++ avals s.pool, s.next_ptr⟩

/-- Heap pool invariant: pool ids are unique and every allocated pointer is
in exactly one of the pool, a heap record, or the freed log. -/
def HeapInv (s : HeapPoolState) : Prop :=
  (akeys s.pool).Nodup ∧
  (∀ p ∈ avals s.pool ++ s.heap_owned ++ s.freed, p < s.next_ptr) ∧
  (∀ p < s.next_ptr, (avals s.pool ++ s.heap_owned ++ s.freed).count p = 1)

/-! ## GPU virtual addresses (OverrideGetGpuVirtualAddress /
MapGpuVirtualAddress)

D3D12ResourceVaInfo models the capture_address_ and replay_address_ fields of
the resource extra-info (zero means unset). -/

structure GpuVaMapEntry where
  resource : Nat
  capture_base : Nat
  replay_base : Nat
  width : Nat
deriving DecidableEq

structure D3D12ResourceVaInfo where
  capture_address : Nat
  replay_address : Nat
deriving DecidableEq

structure GpuVaState where
  resources : List (Nat × D3D12ResourceVaInfo)
  gpu_va_map : List GpuVaMapEntry
deriving DecidableEq

/-- OverrideGetGpuVirtualAddress: when both the capture and replay addresses
are nonzero and the capture address has not been recorded yet, record the
(capture, replay) pair in the resource extra-info and add the range to the
GPU VA map; the driver's replay address is returned either way. -/
def overrideGetGpuVirtualAddress (s : GpuVaState) (r : Nat)
    (original_result replay_result width : Nat) : GpuVaState × Nat :=
  if original_result ≠ 0 ∧ replay_result ≠ 0 then
    let info := (alookup s.resources r).getD ⟨0, 0⟩
    if info.capture_address = 0 then
      (⟨aset s.resources r ⟨original_result, replay_result⟩,
        s.gpu_va_map ++ [⟨r, original_result, replay_result, width⟩]⟩, replay_result)
    else (s, replay_result)
  else (s, replay_result)

/-- Modelled from the spec: the translation `object_mapping::MapGpuVirtualAddress`
over the GPU VA map (util/gpu_va_range), whose implementation is not among
the studied sources.  Per the spec, entries are keyed by the capture-time
range [capture_base, capture_base + width); an address inside a range is
rewritten to the matching replay address; addresses that fall outside any
known range are left unchanged. -/
def mapGpuVirtualAddress (entries : List GpuVaMapEntry) (address : Nat) : Nat :=
  match entries.find? (fun e =>
      decide (e.capture_base ≤ address) && decide (address < e.capture_base + e.width)) with
  | some e => e.replay_base + (address - e.capture_base)
  | none => address

/-! ## Swap-chain creation (OverrideCreateSwapChain / CreateSwapChainForHwnd /
SetSwapchainInfo)

The core state touched by swap-chain creation: the hwnd_id to native handle
table, the active window set, and the created swapchain's extra-info.  The
outcome records the returned HRESULT's success, whether a window was created
through the window factory, and whether it was destroyed again. -/

structure DxgiSwapchainInfo where
  window : Nat
  hwnd_id : Nat
  image_count : Nat
deriving DecidableEq

structure SwapCreateState where
  window_handles : List (Nat × Nat)
  active_windows : List Nat
  swapchain_extra : Option DxgiSwapchainInfo
deriving DecidableEq

/-- SetSwapchainInfo: when the object info exists, attach the swapchain
extra-info, record the hwnd_id mapping when nonzero, and insert the window
into the active set; with no object info only the active-window set grows. -/
def setSwapchainInfo (s : SwapCreateState) (info_ok : Bool) (w hwnd_id image_count : Nat) :
    SwapCreateState :=
  if info_ok then
    let s1 : SwapCreateState := ⟨s.window_handles, s.active_windows, some ⟨w, hwnd_id, image_count⟩⟩
    let s2 : SwapCreateState :=
      if hwnd_id ≠ 0 then ⟨aset s1.window_handles hwnd_id w, s1.active_windows, s1.swapchain_extra⟩
      else s1
    ⟨s2.window_handles, s2.active_windows ++ [w], s2.swapchain_extra⟩
  else ⟨s.window_handles, s.active_windows ++ [w], s.swapchain_extra⟩

structure SwapCreateOutcome where
  state : SwapCreateState
  hres_ok : Bool
  window_created : Bool
  window_destroyed : Bool
deriving DecidableEq

/-- CreateSwapChainForHwnd: create a window from the desc, retrieve its
native handle, call the driver, and record swapchain state only on success;
on native-handle failure or driver failure the window is destroyed through
the window factory and the state is untouched. -/
def createSwapChainForHwnd (s : SwapCreateState)
    (desc_ok window_ok handle_ok driver_ok info_ok : Bool)
    (w hwnd_id image_count : Nat) : SwapCreateOutcome :=
  if !(desc_ok && window_ok) then ⟨s, false, false, false⟩
  else if !handle_ok then ⟨s, false, true, true⟩
  else if !driver_ok then ⟨s, false, true, true⟩
  else ⟨setSwapchainInfo s info_ok w hwnd_id image_count, true, true, false⟩

/-- OverrideCreateSwapChain: same shape as CreateSwapChainForHwnd, with the
hwnd_id read from the decoded meta struct when present (zero otherwise). -/
def overrideCreateSwapChain (s : SwapCreateState)
    (desc_ok window_ok handle_ok driver_ok info_ok meta_ok : Bool)
    (w hwnd_id image_count : Nat) : SwapCreateOutcome :=
  if !(desc_ok && window_ok) then ⟨s, false, false, false⟩
  else if !handle_ok then ⟨s, false, true, true⟩
  else if !driver_ok then ⟨s, false, true, true⟩
  else ⟨setSwapchainInfo s info_ok w (if meta_ok then hwnd_id else 0) image_count, true,
    true, false⟩

/-! ## Basic association-list lemmas -/

theorem akeys_aupdate {α : Type} (l : List (Nat × α)) (k : Nat) (g : α → α) :
    akeys (aupdate l k g) = akeys l := by
  induction l with
  | nil => rfl
  | cons e t ih =>
    by_cases h : e.1 = k <;> simp [aupdate, akeys, h] at * <;> simpa [akeys] using ih

theorem alookup_aupdate_self {α : Type} {l : List (Nat × α)} {k : Nat} {v : α} (g : α → α)
    (h : alookup l k = some v) : alookup (aupdate l k g) k = some (g v) := by
  induction l with
  | nil => simp [alookup] at h
  | cons e t ih =>
    by_cases he : e.1 = k
    · simp [alookup, he] at h
      subst h
      simp [aupdate, alookup, he]
    · simp [alookup, he] at h
      simp [aupdate, alookup, he, ih h]

theorem alookup_isSome_iff_mem_akeys {α : Type} (l : List (Nat × α)) (k : Nat) :
    (alookup l k).isSome ↔ k ∈ akeys l := by
  induction l with
  | nil => simp [alookup, akeys]
  | cons e t ih =>
    by_cases he : e.1 = k <;> simp [alookup, akeys, he, ih]
    exact fun h => (he h.symm).elim

theorem alookup_isSome_of_akeys_eq {α : Type} {l l' : List (Nat × α)} {k : Nat}
    (hk : akeys l' = akeys l) (h : (alookup l k).isSome) : (alookup l' k).isSome := by
  rw [alookup_isSome_iff_mem_akeys] at h ⊢
  rw [hk]
  exact h

theorem mem_aset_weak {α : Type} {l : List (Nat × α)} {k : Nat} {v : α} {x : Nat × α}
    (h : x ∈ aset l k v) : x = (k, v) ∨ x ∈ l := by
  induction l with
  | nil => simpa [aset] using h
  | cons e t ih =>
    by_cases he : e.1 = k
    · simp only [aset, he, if_true, List.mem_cons] at h
      rcases h with h | h
      · exact Or.inl h
      · exact Or.inr (List.mem_cons_of_mem _ h)
    · simp only [aset, he, if_false, List.mem_cons] at h
      rcases h with h | h
      · exact Or.inr (List.mem_cons.mpr (Or.inl h))
      · rcases ih h with h1 | h1
        · exact Or.inl h1
        · exact Or.inr (List.mem_cons_of_mem _ h1)

theorem mem_aset_self {α : Type} (l : List (Nat × α)) (k : Nat) (v : α) :
    (k, v) ∈ aset l k v := by
  induction l with
  | nil => simp [aset]
  | cons e t ih => by_cases he : e.1 = k <;> simp [aset, he, ih]

theorem mem_aset_of_ne {α : Type} {l : List (Nat × α)} {k : Nat} {v : α} {x : Nat × α}
    (hx : x ∈ l) (hne : x.1 ≠ k) : x ∈ aset l k v := by
  induction l with
  | nil => simp at hx
  | cons e t ih =>
    by_cases he : e.1 = k
    · simp only [aset, he, if_true, List.mem_cons]
      rcases List.mem_cons.mp hx with h | h
      · subst h
        exact absurd he hne
      · exact Or.inr h
    · simp only [aset, he, if_false, List.mem_cons]
      rcases List.mem_cons.mp hx with h | h
      · exact Or.inl h
      · exact Or.inr (ih h)

theorem mem_aset_strong {α : Type} {l : List (Nat × α)} {k : Nat} {v : α} {x : Nat × α}
    (hnd : (akeys l).Nodup) (h : x ∈ aset l k v) : x = (k, v) ∨ (x ∈ l ∧ x.1 ≠ k) := by
  induction l with
  | nil =>
    simp only [aset, List.mem_singleton] at h
    exact Or.inl h
  | cons e t ih =>
    rw [akeys, List.map_cons, List.nodup_cons] at hnd
    obtain ⟨hnotin, hndt⟩ := hnd
    by_cases he : e.1 = k
    · simp only [aset, he, if_true, List.mem_cons] at h
      rcases h with h | h
      · exact Or.inl h
      · refine Or.inr ⟨List.mem_cons_of_mem _ h, fun hxk => ?_⟩
        refine hnotin ?_
        rw [he, ← hxk]
        exact List.mem_map_of_mem _ h
    · simp only [aset, he, if_false, List.mem_cons] at h
      rcases h with h | h
      · subst h
        exact Or.inr ⟨List.mem_cons.mpr (Or.inl rfl), he⟩
      · rcases ih hndt h with h1 | h1
        · exact Or.inl h1
        · exact Or.inr ⟨List.mem_cons_of_mem _ h1.1, h1.2⟩

theorem alookup_aset_self {α : Type} (l : List (Nat × α)) (k : Nat) (v : α) :
    alookup (aset l k v) k = some v := by
  induction l with
  | nil => simp [aset, alookup]
  | cons e t ih => by_cases he : e.1 = k <;> simp [aset, alookup, he, ih]

theorem alookup_aset_ne {α : Type} (l : List (Nat × α)) (k k' : Nat) (v : α)
    (hne : k' ≠ k) : alookup (aset l k v) k' = alookup l k' := by
  have hkk : ¬ k = k' := fun h => hne h.symm
  induction l with
  | nil => simp [aset, alookup, hkk]
  | cons e t ih =>
    by_cases he : e.1 = k
    · have he' : ¬ e.1 = k' := fun h => hne (h ▸ he)
      rw [aset, if_pos he, alookup, if_neg hkk, alookup, if_neg he']
    · rw [aset, if_neg he, alookup, alookup]
      by_cases he' : e.1 = k'
      · rw [if_pos he', if_pos he']
      · rw [if_neg he', if_neg he', ih]

theorem alookup_isSome_aset {α : Type} (l : List (Nat × α)) (k k' : Nat) (v : α)
    (h : (alookup l k').isSome) : (alookup (aset l k v) k').isSome := by
  by_cases hk : k' = k
  · subst hk
    simp [alookup_aset_self]
  · rw [alookup_aset_ne l k k' v hk]
    exact h

theorem mem_of_alookup {α : Type} {l : List (Nat × α)} {k : Nat} {v : α}
    (h : alookup l k = some v) : (k, v) ∈ l := by
  induction l with
  | nil => simp [alookup] at h
  | cons e t ih =>
    by_cases he : e.1 = k
    · simp only [alookup, he, if_true, Option.some.injEq] at h
      subst h
      rw [← he]
      exact List.mem_cons.mpr (Or.inl rfl)
    · simp only [alookup, he, if_false] at h
      exact List.mem_cons_of_mem _ (ih h)

theorem alookup_of_mem_nodup {α : Type} {l : List (Nat × α)} {k : Nat} {v : α}
    (hnd : (akeys l).Nodup) (h : (k, v) ∈ l) : alookup l k = some v := by
  induction l with
  | nil => simp at h
  | cons e t ih =>
    rw [akeys, List.map_cons, List.nodup_cons] at hnd
    obtain ⟨hnotin, hndt⟩ := hnd
    rcases List.mem_cons.mp h with h1 | h1
    · rw [← h1]
      simp [alookup]
    · by_cases he : e.1 = k
      · exact absurd (he ▸ List.mem_map_of_mem (·.1) h1) hnotin
      · simp only [alookup, he, if_false]
        exact ih hndt h1

theorem alookup_aerase_self {α : Type} (l : List (Nat × α)) (k : Nat) :
    alookup (aerase l k) k = none := by
  induction l with
  | nil => simp [aerase, alookup]
  | cons e t ih => by_cases he : e.1 = k <;> simp [aerase, alookup, he, ih]

theorem alookup_aerase_ne {α : Type} (l : List (Nat × α)) (k k' : Nat) (hne : k' ≠ k) :
    alookup (aerase l k) k' = alookup l k' := by
  induction l with
  | nil => simp [aerase]
  | cons e t ih =>
    by_cases he : e.1 = k
    · have he' : ¬ e.1 = k' := fun h => hne (h ▸ he)
      rw [aerase, if_pos he, alookup, if_neg he', ih]
    · rw [aerase, if_neg he, alookup, alookup]
      by_cases he' : e.1 = k'
      · rw [if_pos he', if_pos he']
      · rw [if_neg he', if_neg he', ih]

theorem mem_aerase {α : Type} {l : List (Nat × α)} {k : Nat} {x : Nat × α} :
    x ∈ aerase l k ↔ x ∈ l ∧ x.1 ≠ k := by
  induction l with
  | nil => simp [aerase]
  | cons e t ih =>
    by_cases he : e.1 = k
    · simp only [aerase, he, if_true, ih, List.mem_cons]
      constructor
      · rintro ⟨h1, h2⟩
        exact ⟨Or.inr h1, h2⟩
      · rintro ⟨h1 | h1, h2⟩
        · subst h1
          exact absurd he h2
        · exact ⟨h1, h2⟩
    · simp only [aerase, he, if_false, List.mem_cons, ih]
      constructor
      · rintro (h1 | ⟨h1, h2⟩)
        · subst h1
          exact ⟨Or.inl rfl, he⟩
        · exact ⟨Or.inr h1, h2⟩
      · rintro ⟨h1 | h1, h2⟩
        · exact Or.inl h1
        · exact Or.inr ⟨h1, h2⟩

theorem aerase_sublist {α : Type} (l : List (Nat × α)) (k : Nat) :
    (aerase l k).Sublist l := by
  induction l with
  | nil => simp [aerase]
  | cons e t ih =>
    by_cases he : e.1 = k
    · simp only [aerase, he, if_true]
      exact ih.cons e
    · simp only [aerase, he, if_false]
      exact ih.cons₂ e

theorem akeys_aset_mem {α : Type} {l : List (Nat × α)} {k : Nat} {v : α} {y : Nat}
    (h : y ∈ akeys (aset l k v)) : y = k ∨ y ∈ akeys l := by
  rw [akeys, List.mem_map] at h
  obtain ⟨x, hx, hxy⟩ := h
  rcases mem_aset_weak hx with h1 | h1
  · subst h1
    exact Or.inl hxy.symm
  · refine Or.inr ?_
    rw [← hxy]
    exact List.mem_map_of_mem _ h1

theorem akeys_aset_nodup {α : Type} {l : List (Nat × α)} {k : Nat} {v : α}
    (hnd : (akeys l).Nodup) : (akeys (aset l k v)).Nodup := by
  induction l with
  | nil => simp [aset, akeys]
  | cons e t ih =>
    rw [akeys, List.map_cons, List.nodup_cons] at hnd
    obtain ⟨hnotin, hndt⟩ := hnd
    by_cases he : e.1 = k
    · rw [aset, if_pos he, akeys, List.map_cons, List.nodup_cons]
      exact ⟨fun h => hnotin (he ▸ h), hndt⟩
    · rw [aset, if_neg he, akeys, List.map_cons, List.nodup_cons]
      refine ⟨fun h => ?_, ih hndt⟩
      rcases akeys_aset_mem h with h1 | h1
      · exact he h1
      · exact hnotin h1

theorem akeys_aerase_nodup {α : Type} {l : List (Nat × α)} {k : Nat}
    (hnd : (akeys l).Nodup) : (akeys (aerase l k)).Nodup := by
  simp only [akeys] at hnd ⊢
  exact hnd.sublist ((aerase_sublist l k).map (fun x => x.1))

/-- CLAIM C1.  Failing input for the claimed ProcessFenceSignal range
behavior: fence 0 has last_signaled_value 0 and a waiter registered under key
3; signaling value 5 leaves the key-3 entry in waiting_objects, waits on no
event, never invokes SignalWaitingQueue, and leaves the waiting queue's
pending wait entry unsignaled - because no entry is keyed exactly at 5, the
source skips the whole range (0, 5]. -/
theorem processFenceSignal_stranded_waiter :
    (0 : Nat) < 3 ∧ (3 : Nat) ≤ 5 ∧
    (c1Result.bind (fun s => alookup s.fences 0)).map FenceInfo.waiting_objects =
      some [(3, ⟨[77], [10]⟩)] ∧
    (c1Result.bind (fun s => alookup s.fences 0)).map FenceInfo.last_signaled_value =
      some 5 ∧
    c1Result.map SyncState.waited_events = some [] ∧
    c1Result.map SyncState.queue_notifications = some [] ∧
    (c1Result.bind (fun s => alookup s.queues 10)).map QueueInfo.pending_events =
      some [⟨true, false, 0, 3⟩] := by
  decide


/-- CLAIM C2 (counterexample).  ProcessFenceSignal assigns
last_signaled_value unconditionally: signaling value 2 on a fence whose
last_signaled_value is 5 drops it to 2, so the value is not monotonically
non-decreasing across successful signal operations. -/
theorem processFenceSignal_last_value_decreases :
    (alookup c2State.fences 0).map FenceInfo.last_signaled_value = some 5 ∧
    ((processFenceSignal 10 c2State 0 2).bind (fun s => alookup s.fences 0)).map
      FenceInfo.last_signaled_value = some 2 ∧
    ¬ (5 : Nat) ≤ 2 := by
  decide




/-- CLAIM C3.  Queue pending events drain in FIFO order: after
CreateFence(F,0), Wait(Q,F,4), Signal(Q,G,1) the queue holds
[wait(F,4), signal(G,1)] and G.last_signaled_value = 0 (the deferred signal
has not fired); after Signal(Q',F,4) from a queue with empty pending_events,
both entries drain and G.last_signaled_value = 1. -/
theorem queued_signal_behind_wait_fifo :
    (s4Mid.bind (fun s => alookup s.queues 10)).map QueueInfo.pending_events =
      some [⟨true, false, 0, 4⟩, ⟨false, false, 1, 1⟩] ∧
    (s4Mid.bind (fun s => alookup s.fences 1)).map FenceInfo.last_signaled_value =
      some 0 ∧
    (s4Final.bind (fun s => alookup s.queues 10)).map QueueInfo.pending_events =
      some [] ∧
    (s4Final.bind (fun s => alookup s.queues 11)).map QueueInfo.pending_events =
      some [] ∧
    (s4Final.bind (fun s => alookup s.fences 1)).map FenceInfo.last_signaled_value =
      some 1 ∧
    (s4Final.bind (fun s => alookup s.fences 0)).map FenceInfo.last_signaled_value =
      some 4 := by
  decide

/-! ## Preservation facts about the synchronizer -/

theorem SyncObs.refl (s : SyncState) : SyncObs s s :=
  ⟨rfl, rfl, fun _ hx => Or.inl hx⟩

theorem SyncObs.trans {s t u : SyncState} (h1 : SyncObs s t) (h2 : SyncObs t u) :
    SyncObs s u := by
  obtain ⟨hf1, hq1, hw1⟩ := h1
  obtain ⟨hf2, hq2, hw2⟩ := h2
  refine ⟨hf2.trans hf1, hq2.trans hq1, fun x hx => ?_⟩
  rcases hw2 x hx with h | h
  · exact hw1 x h
  · exact Or.inr h

theorem syncObs_setFences_aupdate (s : SyncState) (f : Nat) (g : FenceInfo → FenceInfo) :
    SyncObs s (s.setFences (aupdate s.fences f g)) :=
  ⟨akeys_aupdate s.fences f g, rfl, fun _ hx => Or.inl hx⟩

theorem syncObs_setQueues_aupdate (s : SyncState) (q : Nat) (g : QueueInfo → QueueInfo) :
    SyncObs s (s.setQueues (aupdate s.queues q g)) :=
  ⟨rfl, akeys_aupdate s.queues q g, fun _ hx => Or.inl hx⟩

theorem syncObs_logWaits (s : SyncState) (l : List (Nat × Nat))
    (h : ∀ x ∈ l, x.2 = kDefaultWaitTimeout) : SyncObs s (s.logWaits l) := by
  refine ⟨rfl, rfl, fun x hx => ?_⟩
  simp only [SyncState.logWaits, List.mem_append] at hx
  rcases hx with hx | hx
  · exact Or.inl hx
  · exact Or.inr (h x hx)

theorem syncObs_logNotification (s : SyncState) (q f v : Nat) :
    SyncObs s (s.logNotification q f v) :=
  ⟨rfl, rfl, fun _ hx => Or.inl hx⟩

/-- Every step of the mutual synchronizer family preserves the fence and
queue key sets and only logs waits that carry the default timeout. -/
theorem syncPreserves (fuel : Nat) :
    (∀ s f v s', processFenceSignal fuel s f v = some s' → SyncObs s s') ∧
    (∀ s f v entries s', processWaitingEntries fuel s f v entries = some s' → SyncObs s s') ∧
    (∀ s f v qs s', notifyWaitQueues fuel s f v qs = some s' → SyncObs s s') ∧
    (∀ s q f v s', signalWaitingQueue fuel s q f v = some s' → SyncObs s s') ∧
    (∀ s q s', drainPendingEvents fuel s q = some s' → SyncObs s s') := by
  induction fuel with
  | zero =>
    refine ⟨?_, ?_, ?_, ?_, ?_⟩ <;> intro _ <;> intros <;>
      simp_all [processFenceSignal, processWaitingEntries, notifyWaitQueues,
        signalWaitingQueue, drainPendingEvents]
  | succ n ih =>
    obtain ⟨ihP, ihW, ihN, ihS, ihD⟩ := ih
    refine ⟨?_, ?_, ?_, ?_, ?_⟩
    · intro s f v s' h
      simp only [processFenceSignal] at h
      cases hf : alookup s.fences f with
      | none =>
        rw [hf] at h
        cases h
        exact SyncObs.refl s
      | some fi =>
        rw [hf] at h
        by_cases hfind : (alookup fi.waiting_objects v).isSome
        · simp only [hfind, if_true] at h
          cases hW : processWaitingEntries n s f v
              (fi.waiting_objects.filter (fun e =>
                (if fi.last_signaled_value < v then
                  (fun k => decide (fi.last_signaled_value < k) && decide (k ≤ v))
                 else (fun k => k == v)) e.1)) with
          | none => rw [hW] at h; cases h
          | some s1 =>
            rw [hW] at h
            cases h
            exact (ihW _ _ _ _ _ hW).trans (syncObs_setFences_aupdate _ _ _)
        · simp only [hfind, if_false] at h
          cases h
          exact syncObs_setFences_aupdate _ _ _
    · intro s f v entries s' h
      cases entries with
      | nil =>
        simp only [processWaitingEntries] at h
        cases h
        exact SyncObs.refl s
      | cons e rest =>
        obtain ⟨k, w⟩ := e
        simp only [processWaitingEntries] at h
        cases hN : notifyWaitQueues n
            (s.logWaits (w.wait_events.map (fun e => (e, kDefaultWaitTimeout)))) f v
            w.wait_queues with
        | none => rw [hN] at h; simp at h
        | some s2 =>
          rw [hN] at h
          simp only [] at h
          have h1 : SyncObs s
              (s.logWaits (w.wait_events.map (fun e => (e, kDefaultWaitTimeout)))) := by
            refine syncObs_logWaits _ _ ?_
            intro x hx
            simp only [List.mem_map] at hx
            obtain ⟨e, _, he⟩ := hx
            rw [← he]
          exact (h1.trans (ihN _ _ _ _ _ hN)).trans (ihW _ _ _ _ _ h)
    · intro s f v qs s' h
      cases qs with
      | nil =>
        simp only [notifyWaitQueues] at h
        cases h
        exact SyncObs.refl s
      | cons q rest =>
        simp only [notifyWaitQueues] at h
        cases hS : signalWaitingQueue n s q f v with
        | none => rw [hS] at h; simp at h
        | some s1 =>
          rw [hS] at h
          simp only [] at h
          exact (ihS _ _ _ _ _ hS).trans (ihN _ _ _ _ _ h)
    · intro s q f v s' h
      simp only [signalWaitingQueue] at h
      cases hq : alookup (s.logNotification q f v).queues q with
      | none =>
        rw [hq] at h
        cases hf : alookup (s.logNotification q f v).fences f <;> rw [hf] at h <;>
          cases h <;> exact syncObs_logNotification s q f v
      | some qi =>
        rw [hq] at h
        cases hf : alookup (s.logNotification q f v).fences f with
        | none =>
          rw [hf] at h
          cases h
          exact syncObs_logNotification s q f v
        | some fi =>
          rw [hf] at h
          have h0 : SyncObs s (s.logNotification q f v) := syncObs_logNotification s q f v
          exact (h0.trans (syncObs_setQueues_aupdate _ _ _)).trans (ihD _ _ _ h)
    · intro s q s' h
      simp only [drainPendingEvents] at h
      cases hq : alookup s.queues q with
      | none =>
        rw [hq] at h
        cases h
        exact SyncObs.refl s
      | some qi =>
        rw [hq] at h
        obtain ⟨pe⟩ := qi
        cases hpe : pe with
        | nil =>
          subst hpe
          simp only [] at h
          cases h
          exact SyncObs.refl s
        | cons front rest =>
          subst hpe
          simp only [] at h
          by_cases hw : front.is_wait
          · simp only [hw, if_true] at h
            by_cases hs : front.is_signaled
            · simp only [hs, if_true] at h
              exact (syncObs_setQueues_aupdate _ _ _).trans (ihD _ _ _ h)
            · simp only [hs, if_false] at h
              cases h
              exact SyncObs.refl s
          · simp only [hw, if_false] at h
            cases hP : processFenceSignal n
                (s.setQueues (aupdate s.queues q (fun _ => ⟨rest⟩))) front.fence
                front.value with
            | none => rw [hP] at h; cases h
            | some s2 =>
              rw [hP] at h
              exact ((syncObs_setQueues_aupdate _ _ _).trans (ihP _ _ _ _ hP)).trans
                (ihD _ _ _ h)

/-- CLAIM C2 (amended).  ProcessFenceSignal writes the signaled value into
last_signaled_value unconditionally; consequently, when the signaled value is
at least the fence's current last_signaled_value, the value does not
decrease.  (Monotonicity across arbitrary successful signals does not hold;
see the counterexample.) -/
theorem processFenceSignal_sets_last_signaled_value
    (fuel : Nat) (s : SyncState) (f v : Nat) (s' : SyncState) (fi : FenceInfo)
    (hrun : processFenceSignal fuel s f v = some s')
    (hf : alookup s.fences f = some fi) (hmono : fi.last_signaled_value ≤ v) :
    (alookup s'.fences f).map FenceInfo.last_signaled_value = some v ∧
    fi.last_signaled_value ≤ v := by
  refine ⟨?_, hmono⟩
  cases fuel with
  | zero => simp [processFenceSignal] at hrun
  | succ n =>
    simp only [processFenceSignal] at hrun
    rw [hf] at hrun
    simp only [] at hrun
    split at hrun
    · split at hrun
      · exact absurd hrun (by simp)
      · next s1 hW =>
        have hobs := (syncPreserves n).2.1 _ _ _ _ _ hW
        have hsome : (alookup s1.fences f).isSome :=
          alookup_isSome_of_akeys_eq hobs.1 (by simp [hf])
        obtain ⟨fi1, hfi1⟩ := Option.isSome_iff_exists.mp hsome
        cases hrun
        simp [SyncState.setFences, alookup_aupdate_self _ hfi1]
    · cases hrun
      simp [SyncState.setFences, alookup_aupdate_self _ hf]

theorem processFenceSignal_sets_last_signaled_value_witness :
    (alookup c2State.fences 0).map FenceInfo.last_signaled_value = some 5 ∧
    (alookup ((processFenceSignal 10 c2State 0 7).getD SyncState.empty).fences 0).map
      FenceInfo.last_signaled_value = some 7 ∧
    (5 : Nat) ≤ 7 := by
  have hrun : processFenceSignal 10 c2State 0 7 =
      some ((processFenceSignal 10 c2State 0 7).getD SyncState.empty) := by decide
  have hf : alookup c2State.fences 0 = some ⟨5, []⟩ := by decide
  obtain ⟨h1, h2⟩ :=
    processFenceSignal_sets_last_signaled_value 10 c2State 0 7 _ _ hrun hf (by decide)
  exact ⟨by decide, h1, h2⟩

/-- CLAIM C5.  OverrideGetCompletedValue on a fence with an extra-info record
returns the capture-recorded value, and when the capture value exceeds the
driver's completed value (and the internal event exists) it registers the
internal event at the capture value and waits synchronously with the default
timeout. -/
theorem overrideGetCompletedValue_returns_capture_value
    (event_ok : Bool) (original_result replay_result : Nat) :
    (overrideGetCompletedValue true event_ok original_result replay_result).returned =
      original_result ∧
    (replay_result < original_result → event_ok = true →
      (overrideGetCompletedValue true event_ok original_result replay_result).registered =
        some original_result ∧
      (overrideGetCompletedValue true event_ok original_result replay_result).wait_timeout =
        some kDefaultWaitTimeout) := by
  refine ⟨?_, fun hlt heo => ?_⟩
  · simp only [overrideGetCompletedValue, if_true]
    split_ifs <;> rfl
  · subst heo
    simp [overrideGetCompletedValue, hlt]

theorem overrideGetCompletedValue_returns_capture_value_witness :
    (overrideGetCompletedValue true true 5 3).returned = 5 ∧
    (overrideGetCompletedValue true true 5 3).registered = some 5 ∧
    (overrideGetCompletedValue true true 5 3).wait_timeout = some kDefaultWaitTimeout := by
  obtain ⟨h1, h2⟩ := overrideGetCompletedValue_returns_capture_value true 5 3
  obtain ⟨h3, h4⟩ := h2 (by decide) rfl
  exact ⟨h1, h3, h4⟩

/-- CLAIM C6 (counterexample).  The default wait timeout is the INFINITE
sentinel (0xFFFFFFFF), i.e. an unbounded wait, not a finite bound: an
immediately-satisfied SetEventOnCompletion waits with timeout INFINITE, and
so does the wait inside OverrideGetCompletedValue. -/
theorem kDefaultWaitTimeout_is_unbounded :
    kDefaultWaitTimeout = INFINITE ∧
    (overrideSetEventOnCompletion (overrideCreateFence SyncState.empty 0 5) 0 3 9).waited_events =
      [(9, INFINITE)] ∧
    (overrideGetCompletedValue true true 5 0).wait_timeout = some INFINITE := by
  decide

/-- CLAIM C6 (amended).  The default wait timeout bound to the synchronous
waits issued by ProcessFenceSignal, OverrideSetEventOnCompletion and
OverrideGetCompletedValue is kDefaultWaitTimeout = INFINITE: these waits are
unbounded, like the shutdown WaitIdle. -/
theorem default_wait_timeout_infinite :
    kDefaultWaitTimeout = INFINITE ∧
    (∀ fuel s f v s', processFenceSignal fuel s f v = some s' →
      ∀ x ∈ s'.waited_events, x ∈ s.waited_events ∨ x.2 = INFINITE) ∧
    (∀ s f v e x, x ∈ (overrideSetEventOnCompletion s f v e).waited_events →
      x ∈ s.waited_events ∨ x.2 = INFINITE) ∧
    (∀ ho eo o rp t,
      (overrideGetCompletedValue ho eo o rp).wait_timeout = some t → t = INFINITE) := by
  refine ⟨rfl, ?_, ?_, ?_⟩
  · intro fuel s f v s' h x hx
    exact ((syncPreserves fuel).1 _ _ _ _ h).2.2 x hx
  · intro s f v e x hx
    unfold overrideSetEventOnCompletion at hx
    cases hf : alookup s.fences f with
    | none =>
      rw [hf] at hx
      exact Or.inl hx
    | some fi =>
      rw [hf] at hx
      simp only [] at hx
      split at hx
      · simp only [SyncState.logWaits, List.mem_append, List.mem_singleton] at hx
        rcases hx with hx | hx
        · exact Or.inl hx
        · subst hx
          exact Or.inr rfl
      · exact Or.inl hx
  · intro ho eo o rp t h
    unfold overrideGetCompletedValue at h
    split_ifs at h
    all_goals simp_all [kDefaultWaitTimeout]

theorem default_wait_timeout_infinite_witness :
    (((3, INFINITE) : Nat × Nat) ∈ c6State.waited_events ∨
      (((3, INFINITE) : Nat × Nat)).2 = INFINITE) ∧
    INFINITE = INFINITE := by
  have hrun : processFenceSignal 10 c6State 0 5 =
      some ((processFenceSignal 10 c6State 0 5).getD SyncState.empty) := by decide
  have hmem : ((3, INFINITE) : Nat × Nat) ∈
      ((processFenceSignal 10 c6State 0 5).getD SyncState.empty).waited_events := by decide
  refine ⟨default_wait_timeout_infinite.2.1 10 c6State 0 5 _ hrun _ hmem, ?_⟩
  exact default_wait_timeout_infinite.2.2.2 true true 5 0 INFINITE (by decide)

/-! ## Mapped memory index preservation -/

theorem mapStep_preservesInv (s : MapState) (r sub id ptr : Nat)
    (hInv : MappedInv s) (hPre : MapPre s r sub id) :
    MappedInv (overrideResourceMap s r sub id ptr) := by
  obtain ⟨dir1, dir2, inj, ndR, ndM⟩ := hInv
  obtain ⟨pre1, pre2⟩ := hPre
  simp only [overrideResourceMap]
  set res := (alookup s.resources r).getD ⟨[]⟩ with hres
  set mi := (alookup res.mapped_memory_info sub).getD ⟨0, 0⟩ with hmi
  have F1 : ∀ me ∈ res.mapped_memory_info, (r, res) ∈ s.resources := by
    intro me hme
    cases hr : alookup s.resources r with
    | none =>
      rw [hres, hr] at hme
      simp at hme
    | some res0 =>
      have h0 : res = res0 := by rw [hres, hr]; rfl
      rw [h0]
      exact mem_of_alookup hr
  have F2 : (akeys res.mapped_memory_info).Nodup := by
    cases hr : alookup s.resources r with
    | none =>
      rw [hres, hr]
      simp [akeys]
    | some res0 =>
      have h0 : res = res0 := by rw [hres, hr]; rfl
      rw [h0]
      exact ndM (r, res0) (mem_of_alookup hr)
  have hresof : ∀ re ∈ s.resources, re.1 = r → res = re.2 := by
    intro re hre hr1
    have hlook : alookup s.resources r = some re.2 := by
      rw [← hr1]
      exact alookup_of_mem_nodup ndR (by simpa using hre)
    rw [hres, hlook]
    rfl
  have pre1' : ∀ me ∈ res.mapped_memory_info, me.1 = sub → me.2.memory_id = id := by
    intro me hme hsm
    refine pre1 me.2 ?_
    rw [← hsm]
    exact alookup_of_mem_nodup F2 (by simpa using hme)
  -- A: a pair of the new state whose memory id is the mapped id is the new slot.
  have hA : ∀ re' ∈ aset s.resources r ⟨aset res.mapped_memory_info sub ⟨id, mi.count + 1⟩⟩,
      ∀ me' ∈ re'.2.mapped_memory_info, me'.2.memory_id = id → re'.1 = r ∧ me'.1 = sub := by
    intro re' hre' me' hme' hid'
    rcases mem_aset_strong ndR hre' with h1 | h1
    · subst h1
      rcases mem_aset_strong F2 hme' with h2 | h2
      · subst h2
        exact ⟨rfl, rfl⟩
      · have := pre2 (r, res) (F1 me' h2.1) me' h2.1 hid'
        exact absurd this.2 h2.2
    · exact absurd (pre2 re' h1.1 me' hme' hid').1 h1.2
  -- B: a pair of the new state with a different memory id is an old pair.
  have hB : ∀ re' ∈ aset s.resources r ⟨aset res.mapped_memory_info sub ⟨id, mi.count + 1⟩⟩,
      ∀ me' ∈ re'.2.mapped_memory_info, me'.2.memory_id ≠ id →
      ∃ re ∈ s.resources, ∃ me ∈ re.2.mapped_memory_info,
        re.1 = re'.1 ∧ me.1 = me'.1 ∧ me.2.memory_id = me'.2.memory_id := by
    intro re' hre' me' hme' hne
    rcases mem_aset_strong ndR hre' with h1 | h1
    · subst h1
      rcases mem_aset_strong F2 hme' with h2 | h2
      · subst h2
        exact absurd rfl hne
      · exact ⟨(r, res), F1 me' h2.1, me', h2.1, rfl, rfl, rfl⟩
    · exact ⟨re', h1.1, me', hme', rfl, rfl, rfl⟩
  refine ⟨?_, ?_, ?_, akeys_aset_nodup ndR, ?_⟩
  · -- index entry -> referencing subresource
    intro e he
    rcases mem_aset_weak he with he1 | he1
    · subst he1
      exact ⟨_, mem_aset_self _ _ _, _, mem_aset_self _ _ _, rfl, Nat.succ_pos _⟩
    · obtain ⟨re, hre, me, hme, hid, hc⟩ := dir1 e he1
      by_cases hrr : re.1 = r
      · have hre2 : res = re.2 := hresof re hre hrr
        by_cases hss : me.1 = sub
        · refine ⟨_, mem_aset_self _ _ _, _, mem_aset_self _ _ _, ?_, Nat.succ_pos _⟩
          have : me.2.memory_id = id := by
            refine pre1' me ?_ hss
            rw [hre2]
            exact hme
          simp only []
          rw [← hid, this]
        · refine ⟨_, mem_aset_self _ _ _, me, ?_, hid, hc⟩
          refine mem_aset_of_ne ?_ hss
          rw [hre2]
          exact hme
      · exact ⟨re, mem_aset_of_ne hre hrr, me, hme, hid, hc⟩
  · -- referencing subresource -> positive count and indexed id
    intro re' hre' me' hme'
    rcases mem_aset_weak hre' with h1 | h1
    · subst h1
      rcases mem_aset_weak hme' with h2 | h2
      · subst h2
        refine ⟨Nat.succ_pos _, ?_⟩
        simp [alookup_aset_self]
      · have := dir2 (r, res) (F1 me' h2) me' h2
        exact ⟨this.1, alookup_isSome_aset _ _ _ _ this.2⟩
    · have := dir2 re' h1 me' hme'
      exact ⟨this.1, alookup_isSome_aset _ _ _ _ this.2⟩
  · -- injectivity of memory ids across subresource slots
    intro re1 hre1 re2 hre2 me1 hme1 me2 hme2 heq
    by_cases hid1 : me1.2.memory_id = id
    · have h1 := hA re1 hre1 me1 hme1 hid1
      have h2 := hA re2 hre2 me2 hme2 (by rw [← heq]; exact hid1)
      exact ⟨h1.1.trans h2.1.symm, h1.2.trans h2.2.symm⟩
    · obtain ⟨ra, hra, ma, hma, hka, hsa, hia⟩ := hB re1 hre1 me1 hme1 hid1
      obtain ⟨rb, hrb, mb, hmb, hkb, hsb, hib⟩ := hB re2 hre2 me2 hme2 (by rw [← heq]; exact hid1)
      have := inj ra hra rb hrb ma hma mb hmb (by rw [hia, hib, heq])
      exact ⟨hka ▸ hkb ▸ this.1, hsa ▸ hsb ▸ this.2⟩
  · -- per-resource key uniqueness
    intro re' hre'
    rcases mem_aset_weak hre' with h1 | h1
    · subst h1
      exact akeys_aset_nodup F2
    · exact ndM re' h1

theorem unmapStep_preservesInv (s : MapState) (r sub : Nat) (hInv : MappedInv s) :
    MappedInv (overrideResourceUnmap s r sub) := by
  unfold overrideResourceUnmap
  cases hr : alookup s.resources r with
  | none => exact hInv
  | some res =>
    simp only []
    cases hsub : alookup res.mapped_memory_info sub with
    | none => exact hInv
    | some mi =>
      simp only []
      obtain ⟨dir1, dir2, inj, ndR, ndM⟩ := hInv
      have hresMem : (r, res) ∈ s.resources := mem_of_alookup hr
      have hmiMem : (sub, mi) ∈ res.mapped_memory_info := mem_of_alookup hsub
      have hndm : (akeys res.mapped_memory_info).Nodup := ndM (r, res) hresMem
      have hresof : ∀ re ∈ s.resources, re.1 = r → re.2 = res := by
        intro re hre hr1
        have hlook : alookup s.resources r = some re.2 := by
          rw [← hr1]
          exact alookup_of_mem_nodup ndR (by simpa using hre)
        rw [hr] at hlook
        exact (Option.some.injEq _ _ ▸ hlook).symm ▸ rfl
      by_cases hz : mi.count - 1 = 0
      · rw [if_pos hz]
        refine ⟨?_, ?_, ?_, akeys_aset_nodup ndR, ?_⟩
        · intro e he
          have he' := mem_aerase.mp he
          obtain ⟨re, hre, me, hme, hid, hc⟩ := dir1 e he'.1
          by_cases hrr : re.1 = r
          · have hre2 : re.2 = res := hresof re hre hrr
            rw [hre2] at hme
            by_cases hss : me.1 = sub
            · have hmi2 : me.2 = mi := by
                have h1 : alookup res.mapped_memory_info me.1 = some me.2 :=
                  alookup_of_mem_nodup hndm (by simpa using hme)
                rw [hss, hsub] at h1
                exact (Option.some.injEq _ _ ▸ h1).symm ▸ rfl
              have hcon : mi.memory_id = e.1 := by rw [← hmi2, hid]
              exact absurd hcon.symm he'.2
            · refine ⟨_, mem_aset_self _ _ _, me, mem_aerase.mpr ⟨hme, hss⟩, hid, hc⟩
          · exact ⟨re, mem_aset_of_ne hre hrr, me, hme, hid, hc⟩
        · intro re' hre' me' hme'
          rcases mem_aset_strong ndR hre' with h1 | h1
          · subst h1
            have h2 := mem_aerase.mp hme'
            have hd := dir2 (r, res) hresMem me' h2.1
            refine ⟨hd.1, ?_⟩
            have hneid : me'.2.memory_id ≠ mi.memory_id := by
              intro hcon
              have := inj (r, res) hresMem (r, res) hresMem me' h2.1 (sub, mi) hmiMem hcon
              exact h2.2 this.2
            rw [alookup_aerase_ne _ _ _ hneid]
            exact hd.2
          · have hd := dir2 re' h1.1 me' hme'
            refine ⟨hd.1, ?_⟩
            have hneid : me'.2.memory_id ≠ mi.memory_id := by
              intro hcon
              have := inj re' h1.1 (r, res) hresMem me' hme' (sub, mi) hmiMem hcon
              exact h1.2 this.1
            rw [alookup_aerase_ne _ _ _ hneid]
            exact hd.2
        · intro re1 hre1 re2 hre2 me1 hme1 me2 hme2 heq
          have hC : ∀ re' ∈ aset s.resources r ⟨aerase res.mapped_memory_info sub⟩,
              ∀ me' ∈ re'.2.mapped_memory_info,
              ∃ re ∈ s.resources, ∃ me ∈ re.2.mapped_memory_info,
                re.1 = re'.1 ∧ me.1 = me'.1 ∧ me.2 = me'.2 := by
            intro re' hre' me' hme'
            rcases mem_aset_strong ndR hre' with h1 | h1
            · subst h1
              have h2 := mem_aerase.mp hme'
              exact ⟨(r, res), hresMem, me', h2.1, rfl, rfl, rfl⟩
            · exact ⟨re', h1.1, me', hme', rfl, rfl, rfl⟩
          obtain ⟨ra, hra, ma, hma, hka, hsa, hva⟩ := hC re1 hre1 me1 hme1
          obtain ⟨rb, hrb, mb, hmb, hkb, hsb, hvb⟩ := hC re2 hre2 me2 hme2
          have := inj ra hra rb hrb ma hma mb hmb (by rw [hva, hvb, heq])
          exact ⟨hka ▸ hkb ▸ this.1, hsa ▸ hsb ▸ this.2⟩
        · intro re' hre'
          rcases mem_aset_weak hre' with h1 | h1
          · subst h1
            exact akeys_aerase_nodup hndm
          · exact ndM re' h1
      · rw [if_neg hz]
        have hcpos : 0 < mi.count - 1 := Nat.pos_of_ne_zero hz
        refine ⟨?_, ?_, ?_, akeys_aset_nodup ndR, ?_⟩
        · intro e he
          obtain ⟨re, hre, me, hme, hid, hc⟩ := dir1 e he
          by_cases hrr : re.1 = r
          · have hre2 : re.2 = res := hresof re hre hrr
            rw [hre2] at hme
            by_cases hss : me.1 = sub
            · have hmi2 : me.2 = mi := by
                have h1 : alookup res.mapped_memory_info me.1 = some me.2 :=
                  alookup_of_mem_nodup hndm (by simpa using hme)
                rw [hss, hsub] at h1
                exact (Option.some.injEq _ _ ▸ h1).symm ▸ rfl
              refine ⟨_, mem_aset_self _ _ _, _, mem_aset_self _ _ _, ?_, hcpos⟩
              simp only []
              rw [← hid, hmi2]
            · exact ⟨_, mem_aset_self _ _ _, me, mem_aset_of_ne hme hss, hid, hc⟩
          · exact ⟨re, mem_aset_of_ne hre hrr, me, hme, hid, hc⟩
        · intro re' hre' me' hme'
          rcases mem_aset_weak hre' with h1 | h1
          · subst h1
            rcases mem_aset_weak hme' with h2 | h2
            · subst h2
              refine ⟨hcpos, ?_⟩
              exact (dir2 (r, res) hresMem (sub, mi) hmiMem).2
            · exact dir2 (r, res) hresMem me' h2
          · exact dir2 re' h1 me' hme'
        · intro re1 hre1 re2 hre2 me1 hme1 me2 hme2 heq
          have hC : ∀ re' ∈ aset s.resources r
                ⟨aset res.mapped_memory_info sub ⟨mi.memory_id, mi.count - 1⟩⟩,
              ∀ me' ∈ re'.2.mapped_memory_info,
              ∃ re ∈ s.resources, ∃ me ∈ re.2.mapped_memory_info,
                re.1 = re'.1 ∧ me.1 = me'.1 ∧ me.2.memory_id = me'.2.memory_id := by
            intro re' hre' me' hme'
            rcases mem_aset_strong ndR hre' with h1 | h1
            · subst h1
              rcases mem_aset_strong hndm hme' with h2 | h2
              · subst h2
                exact ⟨(r, res), hresMem, (sub, mi), hmiMem, rfl, rfl, rfl⟩
              · exact ⟨(r, res), hresMem, me', h2.1, rfl, rfl, rfl⟩
            · exact ⟨re', h1.1, me', hme', rfl, rfl, rfl⟩
          obtain ⟨ra, hra, ma, hma, hka, hsa, hva⟩ := hC re1 hre1 me1 hme1
          obtain ⟨rb, hrb, mb, hmb, hkb, hsb, hvb⟩ := hC re2 hre2 me2 hme2
          have := inj ra hra rb hrb ma hma mb hmb (by rw [hva, hvb, heq])
          exact ⟨hka ▸ hkb ▸ this.1, hsa ▸ hsb ▸ this.2⟩
        · intro re' hre'
          rcases mem_aset_weak hre' with h1 | h1
          · subst h1
            exact akeys_aset_nodup hndm
          · exact ndM re' h1

/-- CLAIM C4 (counterexample).  After Map(resource 1, sub 0, id 42),
Map(resource 1, sub 1, id 42), Unmap(resource 1, sub 0), subresource 1 still
references memory id 42 with count 1, yet the Mapped Memory Index no longer
contains an entry for 42: the claimed iff-invariant fails when two
subresources alias one memory id. -/
theorem mapped_memory_index_alias_violation :
    (∃ re ∈ c4State.resources, ∃ me ∈ re.2.mapped_memory_info,
      me.2.memory_id = 42 ∧ 0 < me.2.count) ∧
    alookup c4State.mapped_memory 42 = none := by
  decide

/-- CLAIM C4 (amended).  The Mapped Memory Index invariant - an entry
(memory_id, host_ptr) is present iff some resource subresource references the
id with positive count - holds initially and is preserved by
OverrideResourceMap and OverrideResourceUnmap, provided each Map call's id is
consistent: a nested map passes the subresource's stored id, and no other
subresource slot references it.  Moreover every successful Map increments the
subresource count and indexes the id, and an Unmap that brings the count to
zero removes exactly that id's index entry. -/
theorem mapped_memory_index_invariant_preserved :
    MappedInv MapState.empty ∧
    (∀ s r sub id ptr, MappedInv s → MapPre s r sub id →
      MappedInv (overrideResourceMap s r sub id ptr)) ∧
    (∀ s r sub, MappedInv s → MappedInv (overrideResourceUnmap s r sub)) ∧
    (∀ s r sub id ptr,
      alookup (overrideResourceMap s r sub id ptr).mapped_memory id = some ptr ∧
      alookup ((alookup (overrideResourceMap s r sub id ptr).resources r).getD
          ⟨[]⟩).mapped_memory_info sub =
        some ⟨id, ((alookup ((alookup s.resources r).getD ⟨[]⟩).mapped_memory_info
          sub).getD ⟨0, 0⟩).count + 1⟩) ∧
    (∀ s r sub res mi, alookup s.resources r = some res →
      alookup res.mapped_memory_info sub = some mi → mi.count = 1 →
      alookup (overrideResourceUnmap s r sub).mapped_memory mi.memory_id = none) := by
  refine ⟨?_, mapStep_preservesInv, unmapStep_preservesInv, ?_, ?_⟩
  · simp [MappedInv, MapState.empty, akeys, alookup]
  · intro s r sub id ptr
    constructor
    · simp [overrideResourceMap, alookup_aset_self]
    · simp only [overrideResourceMap]
      rw [alookup_aset_self]
      simp only [Option.getD_some]
      rw [alookup_aset_self]
  · intro s r sub res mi hr hsub hc
    unfold overrideResourceUnmap
    rw [hr]
    simp only []
    rw [hsub]
    simp only []
    rw [if_pos (by rw [hc])]
    exact alookup_aerase_self _ _

theorem mapped_memory_index_invariant_preserved_witness :
    MappedInv (overrideResourceMap MapState.empty 1 0 42 100) ∧
    MappedInv (overrideResourceUnmap (overrideResourceMap MapState.empty 1 0 42 100) 1 0) ∧
    alookup (overrideResourceMap MapState.empty 1 0 42 100).mapped_memory 42 = some 100 := by
  have h0 : MappedInv MapState.empty := mapped_memory_index_invariant_preserved.1
  have hpre : MapPre MapState.empty 1 0 42 := by
    constructor
    · intro mi h
      simp [MapState.empty, alookup] at h
    · intro re hre
      simp [MapState.empty] at hre
  have h1 := mapped_memory_index_invariant_preserved.2.1 MapState.empty 1 0 42 100 h0 hpre
  refine ⟨h1, mapped_memory_index_invariant_preserved.2.2.1 _ 1 0 h1, ?_⟩
  exact (mapped_memory_index_invariant_preserved.2.2.2.1 MapState.empty 1 0 42 100).1

/-- CLAIM C7.  Scenario S6: GetBuffer stores back buffer 5 with extra_ref 1;
the application's Release brings ref_count to 0 but the record survives
because extra_ref is 1; ResizeBuffers releases the per-slot extra_ref and,
both counters now zero, destroys the record exactly once. -/
theorem swapchain_slot_retention_scenario :
    alookup s6AfterGet.records 5 = some ⟨1, 1⟩ ∧
    s6AfterGet.images = [some 5, none] ∧
    alookup s6AfterRelease.records 5 = some ⟨0, 1⟩ ∧
    s6AfterRelease.destroyed = [] ∧
    s6AfterResize.destroyed = [5] ∧
    alookup s6AfterResize.records 5 = none ∧
    s6AfterResize.images = List.replicate 3 none := by
  decide

/-- CLAIM C9.  Repeated OverrideGetGpuVirtualAddress calls on one resource
record the same (capture, replay) pair: the first observation with nonzero
addresses writes the extra-info and appends the GPU VA map entry, and any
later call leaves the state unchanged; translating an address outside every
known range is the identity. -/
theorem gpu_va_idempotent_and_identity :
    (∀ s r o rp w info, alookup s.resources r = some info → info.capture_address ≠ 0 →
      (overrideGetGpuVirtualAddress s r o rp w).1 = s) ∧
    (∀ s r o rp w, alookup s.resources r = none → o ≠ 0 → rp ≠ 0 →
      alookup (overrideGetGpuVirtualAddress s r o rp w).1.resources r = some ⟨o, rp⟩ ∧
      (overrideGetGpuVirtualAddress s r o rp w).1.gpu_va_map =
        s.gpu_va_map ++ [⟨r, o, rp, w⟩]) ∧
    (∀ s r o rp w o2 rp2 w2, alookup s.resources r = none → o ≠ 0 → rp ≠ 0 →
      (overrideGetGpuVirtualAddress
        ((overrideGetGpuVirtualAddress s r o rp w).1) r o2 rp2 w2).1 =
      (overrideGetGpuVirtualAddress s r o rp w).1) ∧
    (∀ entries a, (∀ e ∈ entries, ¬(e.capture_base ≤ a ∧ a < e.capture_base + e.width)) →
      mapGpuVirtualAddress entries a = a) := by
  have hA : ∀ (s : GpuVaState) (r o rp w : Nat) (info : D3D12ResourceVaInfo),
      alookup s.resources r = some info → info.capture_address ≠ 0 →
      (overrideGetGpuVirtualAddress s r o rp w).1 = s := by
    intro s r o rp w info hl hc
    simp only [overrideGetGpuVirtualAddress, hl, Option.getD_some]
    by_cases h1 : o ≠ 0 ∧ rp ≠ 0
    · rw [if_pos h1, if_neg hc]
    · rw [if_neg h1]
  have hB : ∀ (s : GpuVaState) (r o rp w : Nat), alookup s.resources r = none →
      o ≠ 0 → rp ≠ 0 →
      alookup (overrideGetGpuVirtualAddress s r o rp w).1.resources r = some ⟨o, rp⟩ ∧
      (overrideGetGpuVirtualAddress s r o rp w).1.gpu_va_map =
        s.gpu_va_map ++ [⟨r, o, rp, w⟩] := by
    intro s r o rp w hl ho hrp
    simp only [overrideGetGpuVirtualAddress, hl, Option.getD_none]
    rw [if_pos ⟨ho, hrp⟩, if_pos trivial]
    exact ⟨alookup_aset_self _ _ _, rfl⟩
  refine ⟨hA, hB, ?_, ?_⟩
  · intro s r o rp w o2 rp2 w2 hl ho hrp
    exact hA _ r o2 rp2 w2 ⟨o, rp⟩ (hB s r o rp w hl ho hrp).1 ho
  · intro entries a h
    unfold mapGpuVirtualAddress
    have hnone : entries.find? (fun e =>
        decide (e.capture_base ≤ a) && decide (a < e.capture_base + e.width)) = none := by
      rw [List.find?_eq_none]
      intro e he
      simp only [Bool.and_eq_true, decide_eq_true_eq, not_and]
      intro h1 h2
      exact h e he ⟨h1, h2⟩
    rw [hnone]

theorem gpu_va_idempotent_and_identity_witness :
    (overrideGetGpuVirtualAddress ⟨[(7, ⟨600, 900⟩)], []⟩ 7 100 200 16).1 =
      ⟨[(7, ⟨600, 900⟩)], []⟩ ∧
    alookup (overrideGetGpuVirtualAddress ⟨[], []⟩ 7 600 900 16).1.resources 7 =
      some ⟨600, 900⟩ ∧
    mapGpuVirtualAddress [⟨7, 600, 900, 16⟩] 50 = 50 := by
  refine ⟨gpu_va_idempotent_and_identity.1 _ 7 100 200 16 ⟨600, 900⟩ (by decide) (by decide),
    (gpu_va_idempotent_and_identity.2.1 _ 7 600 900 16 (by decide) (by decide) (by decide)).1,
    gpu_va_idempotent_and_identity.2.2.2 _ 50 (by decide)⟩

/-- CLAIM C10.  When swap-chain creation fails - desc missing, window
creation failing, native-handle retrieval failing, or the driver call
failing - the core state is unchanged (no swapchain extra-info, no
active-window entry, no hwnd_id mapping), the returned HRESULT is a failure,
and any window created for the call is destroyed through the window
factory; state is recorded only on driver success. -/
theorem swapchain_create_error_leaves_state :
    (∀ s d wo h dr i w hw ic, (d && wo && h && dr) = false →
      (createSwapChainForHwnd s d wo h dr i w hw ic).state = s ∧
      (createSwapChainForHwnd s d wo h dr i w hw ic).hres_ok = false ∧
      ((createSwapChainForHwnd s d wo h dr i w hw ic).window_created = true →
        (createSwapChainForHwnd s d wo h dr i w hw ic).window_destroyed = true)) ∧
    (∀ s d wo h dr i m w hw ic, (d && wo && h && dr) = false →
      (overrideCreateSwapChain s d wo h dr i m w hw ic).state = s ∧
      (overrideCreateSwapChain s d wo h dr i m w hw ic).hres_ok = false ∧
      ((overrideCreateSwapChain s d wo h dr i m w hw ic).window_created = true →
        (overrideCreateSwapChain s d wo h dr i m w hw ic).window_destroyed = true)) := by
  constructor
  · intro s d wo h dr i w hw ic hfail
    cases d <;> cases wo <;> cases h <;> cases dr <;>
      simp_all [createSwapChainForHwnd]
  · intro s d wo h dr i m w hw ic hfail
    cases d <;> cases wo <;> cases h <;> cases dr <;>
      simp_all [overrideCreateSwapChain]

theorem swapchain_create_error_leaves_state_witness :
    (createSwapChainForHwnd ⟨[], [], none⟩ true true true false true 3 9 2).state =
      ⟨[], [], none⟩ ∧
    (createSwapChainForHwnd ⟨[], [], none⟩ true true true false true 3 9 2).hres_ok = false ∧
    (overrideCreateSwapChain ⟨[], [], none⟩ true true false true true true 3 9 2).state =
      ⟨[], [], none⟩ := by
  obtain ⟨h1, h2, h3⟩ := swapchain_create_error_leaves_state.1
    ⟨[], [], none⟩ true true true false true 3 9 2 (by decide)
  obtain ⟨h4, h5, h6⟩ := swapchain_create_error_leaves_state.2
    ⟨[], [], none⟩ true true false true true true 3 9 2 (by decide)
  exact ⟨h1, h2, h4⟩

/-! ## Heap allocation pool accounting -/

theorem aerase_of_not_mem {α : Type} {l : List (Nat × α)} {k : Nat}
    (h : k ∉ akeys l) : aerase l k = l := by
  induction l with
  | nil => rfl
  | cons e t ih =>
    rw [akeys, List.map_cons, List.mem_cons] at h
    push_neg at h
    rw [aerase, if_neg (fun hc => h.1 hc.symm), ih (by simpa [akeys] using h.2)]

theorem aset_of_lookup_none {α : Type} {l : List (Nat × α)} {k : Nat} (v : α)
    (h : alookup l k = none) : aset l k v = l ++ [(k, v)] := by
  induction l with
  | nil => rfl
  | cons e t ih =>
    by_cases he : e.1 = k
    · simp [alookup, he] at h
    · simp only [alookup, he, if_false] at h
      rw [aset, if_neg he, ih h, List.cons_append]

theorem perm_aerase {α : Type} {l : List (Nat × α)} {k : Nat} {v : α}
    (hnd : (akeys l).Nodup) (hl : alookup l k = some v) :
    l.Perm ((k, v) :: aerase l k) := by
  induction l with
  | nil => simp [alookup] at hl
  | cons e t ih =>
    rw [akeys, List.map_cons, List.nodup_cons] at hnd
    obtain ⟨hnotin, hndt⟩ := hnd
    by_cases he : e.1 = k
    · simp only [alookup, he, if_true, Option.some.injEq] at hl
      have hek : e = (k, v) := Prod.ext he hl
      have hkt : k ∉ akeys t := fun hm => hnotin (by rw [he]; exact hm)
      rw [aerase, if_pos he, aerase_of_not_mem hkt, hek]
    · simp only [alookup, he, if_false] at hl
      rw [aerase, if_neg he]
      exact ((ih hndt hl).cons e).trans (List.Perm.swap (k, v) e _)

theorem count_avals_aerase {α : Type} {l : List (Nat × α)} {k : Nat} {v : α}
    (hnd : (akeys l).Nodup) (hl : alookup l k = some v) (x : α) [DecidableEq α] :
    (avals l).count x = (v :: avals (aerase l k)).count x := by
  have hperm : (avals l).Perm (v :: avals (aerase l k)) := by
    have h1 := (perm_aerase hnd hl).map (fun e => e.2)
    simpa [avals] using h1
  exact hperm.count_eq x

/-- CLAIM C8.  Every heap allocation created by
ProcessCreateHeapAllocationCommand is consumed or released exactly once and
never double-freed: the pool invariant - each allocated pointer sits in
exactly one of the pool, a heap record's external_allocation, or the freed
log - holds initially and is preserved by creation (with a fresh id, as the
source asserts), by OpenExistingHeapFromAddress (which erases the pool entry
in all cases, transferring the pointer on driver success and freeing it on
driver failure), and by DestroyHeapAllocations; after shutdown every
allocation is owned or freed exactly once and the freed log never holds a
pointer twice. -/
theorem heap_allocation_single_consumption :
    HeapInv HeapPoolState.empty ∧
    (∀ s id, HeapInv s → alookup s.pool id = none →
      HeapInv (processCreateHeapAllocationCommand s id)) ∧
    (∀ s id ok, HeapInv s → HeapInv (overrideOpenExistingHeapFromAddress s id ok)) ∧
    (∀ s, HeapInv s → HeapInv (destroyHeapAllocations s)) ∧
    (∀ s id ok, alookup (overrideOpenExistingHeapFromAddress s id ok).pool id = none) ∧
    (∀ s id p, alookup s.pool id = some p →
      p ∈ (overrideOpenExistingHeapFromAddress s id true).heap_owned ∧
      p ∈ (overrideOpenExistingHeapFromAddress s id false).freed) ∧
    (∀ s, HeapInv s → (destroyHeapAllocations s).pool = [] ∧
      (∀ p, p < s.next_ptr →
        ((destroyHeapAllocations s).heap_owned ++ (destroyHeapAllocations s).freed).count p = 1) ∧
      (∀ p, (destroyHeapAllocations s).freed.count p ≤ 1)) ∧
    (∀ s, HeapInv s → ∀ p, s.freed.count p ≤ 1) := by
  have hfreed_le : ∀ s, HeapInv s → ∀ p, s.freed.count p ≤ 1 := by
    intro s hInv p
    obtain ⟨hnd, hbd, hcnt⟩ := hInv
    by_cases hp : p < s.next_ptr
    · have h1 := hcnt p hp
      simp only [List.count_append] at h1
      omega
    · by_contra hgt
      have hpos : 0 < s.freed.count p := by omega
      have hmem : p ∈ s.freed := List.count_pos_iff.mp hpos
      exact hp (hbd p (by simp [List.mem_append, hmem]))
  have hdestroy : ∀ s, HeapInv s → HeapInv (destroyHeapAllocations s) := by
    intro s hInv
    obtain ⟨hnd, hbd, hcnt⟩ := hInv
    refine ⟨by simp [destroyHeapAllocations, akeys], ?_, ?_⟩
    · intro p hp
      refine hbd p ?_
      simp only [destroyHeapAllocations, avals, List.map_nil, List.mem_append,
        List.not_mem_nil, false_or] at hp ⊢
      tauto
    · intro p hp
      have h1 := hcnt p hp
      simp only [destroyHeapAllocations, avals, List.map_nil, List.count_append,
        List.count_nil] at h1 ⊢
      omega
  refine ⟨?_, ?_, ?_, hdestroy, ?_, ?_, ?_, hfreed_le⟩
  · refine ⟨by simp [HeapPoolState.empty, akeys], ?_, ?_⟩
    · intro p hp
      simp [HeapPoolState.empty, avals] at hp
    · intro p hp
      exact absurd hp (Nat.not_lt_zero p)
  · intro s id hInv hfree
    obtain ⟨hnd, hbd, hcnt⟩ := hInv
    have hnotmem : id ∉ akeys s.pool := by
      intro hm
      rw [← alookup_isSome_iff_mem_akeys, hfree] at hm
      simp at hm
    have hset : aset s.pool id s.next_ptr = s.pool ++ [(id, s.next_ptr)] :=
      aset_of_lookup_none _ hfree
    have hnext0 : (avals s.pool ++ s.heap_owned ++ s.freed).count s.next_ptr = 0 := by
      by_contra hne
      have hmem := List.count_pos_iff.mp (Nat.pos_of_ne_zero hne)
      exact absurd (hbd _ hmem) (lt_irrefl _)
    refine ⟨?_, ?_, ?_⟩
    · simp only [processCreateHeapAllocationCommand, hset, akeys, List.map_append]
      simp only [akeys] at hnd hnotmem
      simp [List.nodup_append, hnd, hnotmem]
    · intro p hp
      simp only [processCreateHeapAllocationCommand, hset, avals, List.map_append,
        List.mem_append, List.map_cons, List.map_nil, List.mem_singleton] at hp
      simp only [processCreateHeapAllocationCommand]
      rcases hp with ((hp | hp) | hp) | hp
      · exact lt_trans (hbd p (by simp [avals, List.mem_append, hp])) (Nat.lt_succ_self _)
      · omega
      · exact lt_trans (hbd p (by simp [List.mem_append, hp])) (Nat.lt_succ_self _)
      · exact lt_trans (hbd p (by simp [List.mem_append, hp])) (Nat.lt_succ_self _)
    · intro p hp
      simp only [processCreateHeapAllocationCommand, hset, avals, List.map_append,
        List.map_cons, List.map_nil] at *
      by_cases hpn : p = s.next_ptr
      · subst hpn
        simp only [avals, List.count_append] at hnext0 ⊢
        simp [List.count_singleton]
        omega
      · have h1 := hcnt p (by omega)
        simp only [avals, List.count_append] at h1 ⊢
        have : List.count p [s.next_ptr] = 0 := by
          simp [List.count_singleton]
          omega
        omega
  · intro s id ok hInv
    obtain ⟨hnd, hbd, hcnt⟩ := hInv
    cases hl : alookup s.pool id with
    | none =>
      have hred : overrideOpenExistingHeapFromAddress s id ok = s := by
        unfold overrideOpenExistingHeapFromAddress
        rw [hl]
      rw [hred]
      exact ⟨hnd, hbd, hcnt⟩
    | some p =>
      have hpmem : p ∈ avals s.pool := by
        have := mem_of_alookup hl
        exact List.mem_map_of_mem (fun e => e.2) this
      have hcount : ∀ x, (avals s.pool).count x = (p :: avals (aerase s.pool id)).count x :=
        fun x => count_avals_aerase hnd hl x
      have hsubmem : ∀ x, x ∈ avals (aerase s.pool id) → x ∈ avals s.pool := by
        intro x hx
        exact ((aerase_sublist s.pool id).map (fun e => e.2)).subset hx
      cases ok with
      | true =>
        have hred : overrideOpenExistingHeapFromAddress s id true =
            ⟨aerase s.pool id, s.heap_owned ++ [p], s.freed, s.next_ptr⟩ := by
          unfold overrideOpenExistingHeapFromAddress
          rw [hl]
          rfl
        rw [hred]
        refine ⟨akeys_aerase_nodup hnd, ?_, ?_⟩
        · intro q hq
          refine hbd q ?_
          simp only [List.mem_append, List.mem_singleton] at hq ⊢
          rcases hq with (hq | hq | hq) | hq
          · exact Or.inl (Or.inl (hsubmem q hq))
          · exact Or.inl (Or.inr hq)
          · subst hq
            exact Or.inl (Or.inl hpmem)
          · exact Or.inr hq
        · intro q hq
          simp only [] at hq ⊢
          have h1 := hcnt q hq
          have h2 := hcount q
          by_cases hpq : p = q
          · subst hpq
            rw [List.count_cons_self] at h2
            simp only [List.count_append] at h1 h2 ⊢
            rw [List.count_singleton_self]
            omega
          · rw [List.count_cons_of_ne (fun h => hpq h.symm)] at h2
            have h3 : List.count q [p] = 0 := by
              rw [List.count_eq_zero]
              simp only [List.mem_singleton]
              exact fun h => hpq h.symm
            simp only [List.count_append] at h1 h2 ⊢
            omega
      | false =>
        have hred : overrideOpenExistingHeapFromAddress s id false =
            ⟨aerase s.pool id, s.heap_owned, s.freed ++ [p], s.next_ptr⟩ := by
          unfold overrideOpenExistingHeapFromAddress
          rw [hl]
          rfl
        rw [hred]
        refine ⟨akeys_aerase_nodup hnd, ?_, ?_⟩
        · intro q hq
          refine hbd q ?_
          simp only [List.mem_append, List.mem_singleton] at hq ⊢
          rcases hq with (hq | hq) | hq | hq
          · exact Or.inl (Or.inl (hsubmem q hq))
          · exact Or.inl (Or.inr hq)
          · exact Or.inr hq
          · subst hq
            exact Or.inl (Or.inl hpmem)
        · intro q hq
          simp only [] at hq ⊢
          have h1 := hcnt q hq
          have h2 := hcount q
          by_cases hpq : p = q
          · subst hpq
            rw [List.count_cons_self] at h2
            simp only [List.count_append] at h1 h2 ⊢
            rw [List.count_singleton_self]
            omega
          · rw [List.count_cons_of_ne (fun h => hpq h.symm)] at h2
            have h3 : List.count q [p] = 0 := by
              rw [List.count_eq_zero]
              simp only [List.mem_singleton]
              exact fun h => hpq h.symm
            simp only [List.count_append] at h1 h2 ⊢
            omega
  · intro s id ok
    unfold overrideOpenExistingHeapFromAddress
    cases hl : alookup s.pool id with
    | none => exact hl
    | some p => cases ok <;> simp [alookup_aerase_self]
  · intro s id p hl
    unfold overrideOpenExistingHeapFromAddress
    rw [hl]
    simp
  · intro s hInv
    have hd := hdestroy s hInv
    refine ⟨rfl, ?_, fun p => hfreed_le _ hd p⟩
    intro p hp
    have h1 := hd.2.2 p hp
    simp only [destroyHeapAllocations, avals, List.map_nil, List.count_append,
      List.count_nil] at h1 ⊢
    omega

theorem heap_allocation_single_consumption_witness :
    HeapInv (processCreateHeapAllocationCommand HeapPoolState.empty 3) ∧
    HeapInv (overrideOpenExistingHeapFromAddress
      (processCreateHeapAllocationCommand HeapPoolState.empty 3) 3 false) := by
  have h0 := heap_allocation_single_consumption.1
  have h1 := heap_allocation_single_consumption.2.1 HeapPoolState.empty 3 h0 (by decide)
  exact ⟨h1, heap_allocation_single_consumption.2.2.1 _ 3 false h1⟩

end GfxRecon
